import Mathlib

/-!
Shallow embedding of two Betaflight source files,
src/main/drivers/pwm_output_dshot.c and src/main/sensors/rpm_filter.c,
together with theorems settling the specification claims about them.

Modelling conventions:
* C `float` arithmetic is modelled over `ℚ` (exact field arithmetic);
  the claims checked here concern comparison/branching structure, not
  rounding of transcendental functions.
* C machine integers are modelled as `ℕ`/`ℤ`, with an explicit
  `% 2 ^ 32` wherever the C code can wrap a `uint32_t`.
* Library functions from common/filter.c (biquad and pt1 filters) are
  outside the given sources; where only their shape matters they are
  taken as parameters, otherwise they are modelled from the spec and
  flagged as such in the doc comment.
* Hardware/DMA register manipulation carries no data relevant to any
  claim and is omitted from the state.
-/

namespace Betaflight

/-- The modulus of C `uint32_t` arithmetic. -/
def U32 : ℕ := 2 ^ 32

/-- Reinterpret a `uint32_t` bit pattern as a C `int` (two's complement,
as on the ARM targets this code compiles for). -/
def toInt32 (x : ℕ) : ℤ :=
  if x % U32 < 2 ^ 31 then (x % U32 : ℤ) else (x % U32 : ℤ) - 2 ^ 32

/-- Modelled from the spec: `DSHOT_TELEMETRY_INPUT_LEN` is defined in a
header that is not among the given sources.  The spec's standard decode
reads 2×B captured timestamps with B = 16 bits, hence 32. -/
def DSHOT_TELEMETRY_INPUT_LEN : ℕ := 32

/-- Modelled from the spec: `PROSHOT_TELEMETRY_INPUT_LEN` is defined in a
header that is not among the given sources.  The high-resolution decode
reads 4 nibbles at 2 edges each, hence 8. -/
def PROSHOT_TELEMETRY_INPUT_LEN : ℕ := 8

/-- Modelled from the spec: `MOTOR_NIBBLE_LENGTH_PROSHOT` (the expected
wraparound symbol length of the high-resolution variant) is defined in a
header that is not among the given sources; its protocol value is
4 × PROSHOT_BASE_SYMBOL = 96 timer ticks. -/
def MOTOR_NIBBLE_LENGTH_PROSHOT : ℕ := 96

/-- Modelled from the spec: `PROSHOT_BASE_SYMBOL` (the fixed zero offset
the deltas are re-based against) is defined in a header that is not among
the given sources; its protocol value is 24 timer ticks. -/
def PROSHOT_BASE_SYMBOL : ℕ := 24

/-- Modelled from the spec: `PROSHOT_BIT_WIDTH` (the symbol-width
quantization step) is defined in a header that is not among the given
sources; its protocol value is 3 timer ticks. -/
def PROSHOT_BIT_WIDTH : ℕ := 3

/-- The delta `int diff = buffer[i] - buffer[i-1]` of decodeDshotPacket
(pwm_output_dshot.c line 127): the subtraction happens in `uint32_t`
arithmetic and the result is reinterpreted as an `int`. -/
def dshotDiff (b : ℕ → ℕ) (i : ℕ) : ℤ :=
  toInt32 ((b i % U32 + (U32 - b (i - 1) % U32)) % U32)

/-- The bit-accumulation loop of decodeDshotPacket (lines 125–134) after
k iterations; iteration k reads buffer[2k] and buffer[2k+1]. -/
def dshotAccum (b : ℕ → ℕ) : ℕ → ℕ
  | 0 => 0
  | k + 1 =>
    let value := dshotAccum b k
    let diff := dshotDiff b (2 * k + 1)
    let v := (value <<< 1) % U32
    if 0 < diff then (if 11 ≤ diff then v ||| 1 else v)
    else (if -9 ≤ diff then v ||| 1 else v)

/-- The low nibble of the byte-then-nibble XOR fold of the accumulated
word (pwm_output_dshot.c lines 136–140 and 162–166): the value whose
being nonzero makes the decoders return the invalid sentinel. -/
def csumFold (v : ℕ) : ℕ :=
  ((v ^^^ v >>> 8) ^^^ (v ^^^ v >>> 8) >>> 4) &&& 0xf

/-- decodeDshotPacket (pwm_output_dshot.c lines 123–144). -/
def decodeDshotPacket (b : ℕ → ℕ) : ℕ :=
  let value := dshotAccum b (DSHOT_TELEMETRY_INPUT_LEN / 2)
  if csumFold value ≠ 0 then 0xffff else value >>> 4

/-- The re-based delta of decodeProshotPacket (line 151) before the
PROSHOT_BASE_SYMBOL offset is subtracted: the delta is computed in
`uint32_t` arithmetic and reduced modulo the symbol length. -/
def proshotDelta (b : ℕ → ℕ) (i : ℕ) : ℕ :=
  ((b i % U32 + MOTOR_NIBBLE_LENGTH_PROSHOT) % U32
      + (U32 - b (i - 1) % U32)) % U32 % MOTOR_NIBBLE_LENGTH_PROSHOT

/-- One nibble of decodeProshotPacket (lines 150–159): the modular delta is
re-based against PROSHOT_BASE_SYMBOL and quantized; a negative re-based
delta gives nibble 0, and the nibble is masked to 4 bits when
accumulated. -/
def proshotNibble (b : ℕ → ℕ) (i : ℕ) : ℕ :=
  if proshotDelta b i < PROSHOT_BASE_SYMBOL then 0
  else ((proshotDelta b i - PROSHOT_BASE_SYMBOL + PROSHOT_BIT_WIDTH / 2)
      / PROSHOT_BIT_WIDTH) &&& 0xf

/-- The nibble-accumulation loop of decodeProshotPacket (lines 148–160)
after k iterations; iteration k reads buffer[2k] and buffer[2k+1]. -/
def proshotAccum (b : ℕ → ℕ) : ℕ → ℕ
  | 0 => 0
  | k + 1 => ((proshotAccum b k <<< 4) % U32) ||| proshotNibble b (2 * k + 1)

/-- decodeProshotPacket (pwm_output_dshot.c lines 146–170). -/
def decodeProshotPacket (b : ℕ → ℕ) : ℕ :=
  let value := proshotAccum b (PROSHOT_TELEMETRY_INPUT_LEN / 2)
  if csumFold value ≠ 0 then 0xffff else value >>> 4

/-- Nibble k (4 bits at offset 4k) of a word. -/
def nibbleAt (k w : ℕ) : ℕ := w >>> (4 * k) &&& 0xf

/-- The per-motor DMA/telemetry state of pwm_output_dshot.c that the
telemetry-consumption path reads and writes (fields of motorDmaOutput_t;
hardware register state is omitted). -/
structure MotorDma where
  dshotTelemetryValue : ℕ
  hasTelemetry : Bool
  useProshot : Bool
  dmaBuffer : ℕ → ℕ

/-- The driver state shared by all motors: the per-motor records and the
invalid-packet diagnostic counter. -/
structure DshotDriver where
  motors : ℕ → MotorDma
  dshotInvalidPacketCount : ℕ

/-- The decode call of pwmStartDshotMotorUpdate (lines 264–266): protocol
variant selected per motor. -/
def decodeMotor (m : MotorDma) : ℕ :=
  if m.useProshot then decodeProshotPacket m.dmaBuffer else decodeDshotPacket m.dmaBuffer

/-- The body of pwmStartDshotMotorUpdate's per-motor loop (lines 263–278)
acting on one motor record and the invalid-packet counter: a decoded
non-sentinel value is stored, the sentinel leaves the stored value alone
and bumps the counter, and the ready flag is cleared either way. -/
def processDshotTelemetryMotor (m : MotorDma) (invalidCount : ℕ) : MotorDma × ℕ :=
  if m.hasTelemetry then
    let value := decodeMotor m
    if value ≠ 0xffff then
      ({ m with dshotTelemetryValue := value, hasTelemetry := false }, invalidCount)
    else
      ({ m with hasTelemetry := false }, invalidCount + 1)
  else (m, invalidCount)

/-- The per-motor loop of pwmStartDshotMotorUpdate (lines 262–283) over
motors 0..n-1 (the direction-flip hardware calls carry no modelled
state). -/
def pwmStartDshotMotorUpdateLoop (s : DshotDriver) : ℕ → DshotDriver
  | 0 => s
  | n + 1 =>
    let s1 := pwmStartDshotMotorUpdateLoop s n
    let p := processDshotTelemetryMotor (s1.motors n) s1.dshotInvalidPacketCount
    { motors := Function.update s1.motors n p.1, dshotInvalidPacketCount := p.2 }

/-- pwmStartDshotMotorUpdate (lines 259–292): a no-op unless DShot
telemetry is enabled. -/
def pwmStartDshotMotorUpdate (useDshotTelemetry : Bool) (motorCount : ℕ)
    (s : DshotDriver) : DshotDriver :=
  if useDshotTelemetry then pwmStartDshotMotorUpdateLoop s motorCount else s

/-- getDshotTelemetry (lines 294–297). -/
def getDshotTelemetry (s : DshotDriver) (index : ℕ) : ℕ :=
  (s.motors index).dshotTelemetryValue

/-- XYZ_AXIS_COUNT: three gyro axes (defined in a header that is not
among the given sources). -/
def XYZ_AXIS_COUNT : ℕ := 3

/-- The five coefficients of one biquad section. -/
structure BiquadCoeffs where
  b0 : ℚ
  b1 : ℚ
  b2 : ℚ
  a1 : ℚ
  a2 : ℚ
deriving DecidableEq

/-- One biquad notch filter: coefficients plus direct-form-1 delay
state. -/
structure Biquad where
  coeffs : BiquadCoeffs
  x1 : ℚ
  x2 : ℚ
  y1 : ℚ
  y2 : ℚ
deriving DecidableEq

/-- rpmNotchFilter_t (rpm_filter.c lines 44–52): one bank's parameters and
its {axis, motor, harmonic} table of notch filters. -/
structure RpmNotchFilter where
  harmonics : ℕ
  minHz : ℕ
  q : ℚ
  loopTime : ℚ
  notch : ℕ → ℕ → ℕ → Biquad

/-- Modelled from the spec: pt1FilterApply (common/filter.c, outside the
given sources) is the first-order low-pass `state += k (input − state)`
returning the new state. -/
def pt1FilterApply (k state input : ℚ) : ℚ := state + k * (input - state)

/-- The deactivation frequency (rpm_filter.c line 172). -/
def deactivateFreq : ℚ := 1000

/-- The frequency clamp applied to each recomputed cell of
rpmFilterUpdate (lines 173–182), as a function of the bank's configured
minimum and the raw target frequency. -/
def rpmClamp (minHz frequency : ℚ) : ℚ :=
  let f1 := if frequency < minHz then
      (if frequency < 1 / 2 * minHz then deactivateFreq else minHz)
    else frequency
  if f1 > deactivateFreq then deactivateFreq else f1

/-- The center frequency handed to biquadFilterInit for harmonic index i
at bank initialization (rpm_filter.c line 88): `minHz * i`, with the
0-based harmonic index as the multiplier. -/
def notchInitFrequency (minHz i : ℕ) : ℚ := (minHz : ℚ) * i

/-- rpmNotchFilterInit (lines 77–92).  biquadFilterInit (common/filter.c,
outside the given sources) is passed in as `biqInit`, mapping
(frequency, looptime, Q) to the five coefficients; it zeroes the delay
state.  Cells outside the initialized ranges keep their previous
contents, as in C. -/
def rpmNotchFilterInit (biqInit : ℚ → ℚ → ℚ → BiquadCoeffs)
    (harmonics minHz q : ℕ) (looptime : ℚ) (motorCount : ℕ)
    (old : RpmNotchFilter) : RpmNotchFilter where
  harmonics := harmonics
  minHz := minHz
  q := (q : ℚ) / 100
  loopTime := looptime
  notch := fun axis motor i =>
    if axis < XYZ_AXIS_COUNT ∧ motor < motorCount ∧ i < harmonics then
      { coeffs := biqInit (notchInitFrequency minHz i) looptime ((q : ℚ) / 100),
        x1 := 0, x2 := 0, y1 := 0, y2 := 0 }
    else old.notch axis motor i

/-- The whole static state of rpm_filter.c: the two bank slots, the two
bank pointers (modelled as optional indices into `banks`), the eRPM
smoothing state, the scheduling constants, and the persistent round-robin
cursor (the static locals of rpmFilterUpdate, lines 164–167). -/
structure RpmFilterSystem where
  rpmFilters : ℕ → ℚ
  pt1Gain : ℚ
  erpmToHz : ℚ
  filteredMotorErpm : ℕ → ℚ
  numberRpmNotchFilters : ℕ
  filterUpdatesPerIteration : ℕ
  banks : ℕ → RpmNotchFilter
  gyroFilterIdx : Option ℕ
  dtermFilterIdx : Option ℕ
  motorFrequency : ℕ → ℚ
  motor : ℕ
  harmonic : ℕ
  filter : ℕ
  motorCount : ℕ

/-- The rpmFilterConfig_t parameter group (pg/rpm_filter.h). -/
structure RpmFilterConfig where
  gyro_rpm_notch_harmonics : ℕ
  gyro_rpm_notch_min : ℕ
  gyro_rpm_notch_q : ℕ
  dterm_rpm_notch_harmonics : ℕ
  dterm_rpm_notch_min : ℕ
  dterm_rpm_notch_q : ℕ

/-- Modelled from the spec: `rintf` rounds to the nearest integer; the
half-way tie (rounding to even) cannot arise from the claims checked
here, so nearest-with-half-up is used. -/
def qRound (x : ℚ) : ℕ := (⌊x + 1 / 2⌋).toNat

/-- rpmFilterInit (lines 94–124).  `biqInit` stands for biquadFilterInit
and `ptGain` for pt1FilterGain (both from common/filter.c, outside the
given sources).  Starting from state `s` (the C statics are zeroed at
power-on, so both pointers are `none` on the first call), it allocates
the active banks in order, resets the per-motor smoothing state, and
derives the scheduling constants. -/
def rpmFilterInit (biqInit : ℚ → ℚ → ℚ → BiquadCoeffs) (ptGain : ℚ → ℚ → ℚ)
    (cfg : RpmFilterConfig) (useDshotTelemetry : Bool)
    (gyroTargetLooptime : ℚ) (pidProcessDenom : ℕ)
    (motorCount motorPoleCount : ℕ) (s : RpmFilterSystem) : RpmFilterSystem :=
  let s0 := { s with numberRpmNotchFilters := 0 }
  if useDshotTelemetry = false then
    { s0 with gyroFilterIdx := none, dtermFilterIdx := none }
  else
    let pidLooptime := gyroTargetLooptime * pidProcessDenom
    let s1 := if cfg.gyro_rpm_notch_harmonics ≠ 0 then
        { s0 with
          gyroFilterIdx := some 0,
          numberRpmNotchFilters := 1,
          banks := Function.update s0.banks 0
            (rpmNotchFilterInit biqInit cfg.gyro_rpm_notch_harmonics
              cfg.gyro_rpm_notch_min cfg.gyro_rpm_notch_q gyroTargetLooptime
              motorCount (s0.banks 0)) }
      else s0
    let s2 := if cfg.dterm_rpm_notch_harmonics ≠ 0 then
        { s1 with
          dtermFilterIdx := some s1.numberRpmNotchFilters,
          numberRpmNotchFilters := s1.numberRpmNotchFilters + 1,
          banks := Function.update s1.banks s1.numberRpmNotchFilters
            (rpmNotchFilterInit biqInit cfg.dterm_rpm_notch_harmonics
              cfg.dterm_rpm_notch_min cfg.dterm_rpm_notch_q pidLooptime
              motorCount (s1.banks s1.numberRpmNotchFilters)) }
      else s1
    let numberFilters := motorCount * ((s2.banks 0).harmonics + (s2.banks 1).harmonics)
    let loopIterationsPerUpdate := (1 / 1000 : ℚ) / (pidLooptime * (1 / 1000000))
    { s2 with
      rpmFilters := fun m => if m < motorCount then 0 else s2.rpmFilters m,
      pt1Gain := ptGain 150 pidLooptime,
      erpmToHz := (100 : ℚ) / 60 / ((motorPoleCount : ℚ) / 2),
      motorCount := motorCount,
      filterUpdatesPerIteration :=
        qRound ((numberFilters : ℚ) / loopIterationsPerUpdate + 49 / 100) }

/-- biquadFilterApplyDF1 (common/filter.c, outside the given sources),
modelled from the spec: direct-form-1 biquad returning the new filter
state and the output sample. -/
def biquadFilterApplyDF1 (f : Biquad) (input : ℚ) : Biquad × ℚ :=
  let result := f.coeffs.b0 * input + f.coeffs.b1 * f.x1 + f.coeffs.b2 * f.x2
      - f.coeffs.a1 * f.y1 - f.coeffs.a2 * f.y2
  ({ f with x2 := f.x1, x1 := input, y2 := f.y1, y1 := result }, result)

/-- The inner harmonic loop of applyFilter (lines 132–134) on one bank:
harmonics 0..n-1 of one motor, in increasing order, threading the bank
and the sample. -/
def applyFilterHarmonics (axis motor : ℕ) (acc : RpmNotchFilter × ℚ) :
    ℕ → RpmNotchFilter × ℚ
  | 0 => acc
  | n + 1 =>
    let acc1 := applyFilterHarmonics axis motor acc n
    let p := biquadFilterApplyDF1 (acc1.1.notch axis motor n) acc1.2
    ({ acc1.1 with notch := fun a m i =>
        if a = axis ∧ m = motor ∧ i = n then p.1 else acc1.1.notch a m i },
      p.2)

/-- The outer motor loop of applyFilter (lines 131–135): motors 0..n-1 in
increasing order. -/
def applyFilterMotors (axis : ℕ) (acc : RpmNotchFilter × ℚ) :
    ℕ → RpmNotchFilter × ℚ
  | 0 => acc
  | n + 1 =>
    let acc1 := applyFilterMotors axis acc n
    applyFilterHarmonics axis n acc1 acc1.1.harmonics

/-- applyFilter (lines 126–137): a NULL bank pointer returns the sample
unchanged and touches nothing; otherwise the pointed-to bank's filters
are applied and the bank's state advanced in place. -/
def applyFilter (idx : Option ℕ) (motorCount : ℕ) (banks : ℕ → RpmNotchFilter)
    (axis : ℕ) (value : ℚ) : (ℕ → RpmNotchFilter) × ℚ :=
  match idx with
  | none => (banks, value)
  | some i =>
    let p := applyFilterMotors axis (banks i, value) motorCount
    (Function.update banks i p.1, p.2)

/-- rpmFilterGyro (lines 139–142): applies the gyro bank, returning the
updated system state and the filtered sample. -/
def rpmFilterGyro (s : RpmFilterSystem) (axis : ℕ) (value : ℚ) :
    RpmFilterSystem × ℚ :=
  let p := applyFilter s.gyroFilterIdx s.motorCount s.banks axis value
  ({ s with banks := p.1 }, p.2)

/-- rpmFilterDterm (lines 144–147). -/
def rpmFilterDterm (s : RpmFilterSystem) (axis : ℕ) (value : ℚ) :
    RpmFilterSystem × ℚ :=
  let p := applyFilter s.dtermFilterIdx s.motorCount s.banks axis value
  ({ s with banks := p.1 }, p.2)

/-- One single-cell recomputation of rpmFilterUpdate's budget loop
(lines 169–211).  `upd` stands for biquadFilterUpdate (common/filter.c,
outside the given sources): it maps (frequency, looptime, Q) to the five
notch coefficients and leaves the delay state in place.  The clamped
frequency's coefficients are computed once and written to the cell on
every axis; then the cursor advances through harmonic, bank, motor, and
the newly selected motor's frequency estimate is refreshed whenever the
bank index wraps. -/
def rpmFilterUpdateStep (upd : ℚ → ℚ → ℚ → BiquadCoeffs)
    (s : RpmFilterSystem) : RpmFilterSystem :=
  let cf := s.banks s.filter
  let frequency := rpmClamp (cf.minHz : ℚ)
      (((s.harmonic : ℚ) + 1) * s.motorFrequency s.motor)
  let newCoeffs := upd frequency cf.loopTime cf.q
  let cfNew : RpmNotchFilter :=
    { cf with notch := fun axis m h =>
        if m = s.motor ∧ h = s.harmonic ∧ axis < XYZ_AXIS_COUNT then
          { (cf.notch axis m h) with coeffs := newCoeffs }
        else cf.notch axis m h }
  let s1 := { s with banks := Function.update s.banks s.filter cfNew }
  if s.harmonic + 1 = cf.harmonics then
    if s.filter + 1 = s.numberRpmNotchFilters then
      let m1 := if s.motor + 1 = s.motorCount then 0 else s.motor + 1
      { s1 with
        harmonic := 0,
        filter := 0,
        motor := m1,
        motorFrequency := Function.update s.motorFrequency m1
          (s.erpmToHz * s.filteredMotorErpm m1) }
    else
      { s1 with harmonic := 0, filter := s.filter + 1 }
  else
    { s1 with harmonic := s.harmonic + 1 }

/-- rpmFilterUpdate (lines 151–214): early return when both bank pointers
are NULL; otherwise the per-motor eRPM smoothing prologue
(lines 157–162) followed by exactly filterUpdatesPerIteration single-cell
recomputations.  `telem` is getDshotTelemetry's per-motor value. -/
def rpmFilterUpdate (upd : ℚ → ℚ → ℚ → BiquadCoeffs) (telem : ℕ → ℕ)
    (s : RpmFilterSystem) : RpmFilterSystem :=
  if s.gyroFilterIdx = none ∧ s.dtermFilterIdx = none then s
  else
    let st := fun m => if m < s.motorCount then
        pt1FilterApply s.pt1Gain (s.rpmFilters m) (telem m)
      else s.rpmFilters m
    let s1 := { s with
      rpmFilters := st,
      filteredMotorErpm := fun m => if m < s.motorCount then st m
        else s.filteredMotorErpm m }
    (rpmFilterUpdateStep upd)^[s.filterUpdatesPerIteration] s1

/-- n successive control-loop calls of rpmFilterUpdate, with a
tick-indexed telemetry sequence. -/
def rpmFilterUpdateCalls (upd : ℚ → ℚ → ℚ → BiquadCoeffs)
    (telemSeq : ℕ → ℕ → ℕ) (s : RpmFilterSystem) : ℕ → RpmFilterSystem
  | 0 => s
  | n + 1 => rpmFilterUpdate upd (telemSeq n) (rpmFilterUpdateCalls upd telemSeq s n)

/-- The round-robin cursor: the static locals motor, filter, harmonic of
rpmFilterUpdate (lines 164–166). -/
structure RRCursor where
  motor : ℕ
  filter : ℕ
  harmonic : ℕ
deriving DecidableEq

/-- The cursor part of one rpmFilterUpdate step (lines 201–211), for
motor count M, active-bank count F and per-bank harmonic counts h. -/
def rrAdvance (M F : ℕ) (h : ℕ → ℕ) (c : RRCursor) : RRCursor :=
  if c.harmonic + 1 = h c.filter then
    if c.filter + 1 = F then
      ⟨if c.motor + 1 = M then 0 else c.motor + 1, 0, 0⟩
    else ⟨c.motor, c.filter + 1, 0⟩
  else ⟨c.motor, c.filter, c.harmonic + 1⟩

/-- Number of cells of the banks before bank f: the sum of the harmonic
counts of banks 0..f-1. -/
def bankOffset (h : ℕ → ℕ) : ℕ → ℕ
  | 0 => 0
  | f + 1 => bankOffset h f + h f

/-- The position of a cursor in a full round-robin pass: motors outermost,
then banks, then harmonics. -/
def rrRank (H : ℕ) (h : ℕ → ℕ) (c : RRCursor) : ℕ :=
  c.motor * H + bankOffset h c.filter + c.harmonic

/-- A cursor state is valid when each index is inside its range. -/
def RRValid (M F : ℕ) (h : ℕ → ℕ) (c : RRCursor) : Prop :=
  c.motor < M ∧ c.filter < F ∧ c.harmonic < h c.filter

/-- The cursor stored in the system state. -/
def sysCursor (s : RpmFilterSystem) : RRCursor := ⟨s.motor, s.filter, s.harmonic⟩

/-- The per-bank harmonic counts stored in the system state. -/
def sysHarm (s : RpmFilterSystem) : ℕ → ℕ := fun i => (s.banks i).harmonics

/-- The well-formedness the running system maintains: at least one motor,
one or two active banks each with at least one harmonic, inactive bank
slots with harmonic count 0 (the C statics are zero at power-on and
rpmFilterInit writes only the allocated slots), and an in-range
cursor. -/
def SysWF (s : RpmFilterSystem) : Prop :=
  0 < s.motorCount ∧ 0 < s.numberRpmNotchFilters ∧
    s.numberRpmNotchFilters ≤ 2 ∧
    (∀ i, i < s.numberRpmNotchFilters → 0 < sysHarm s i) ∧
    (∀ i, s.numberRpmNotchFilters ≤ i → sysHarm s i = 0) ∧
    RRValid s.motorCount s.numberRpmNotchFilters (sysHarm s) (sysCursor s)

/-- A concrete stand-in for the library coefficient computation, used to
evaluate the embedding at concrete inputs: it records its three arguments
in the first three coefficients. -/
def updSample : ℚ → ℚ → ℚ → BiquadCoeffs := fun f lt q => ⟨f, lt, q, 0, 0⟩

/-- An all-zero capture buffer: every delta is 0, so every DShot bit
decodes to 1 and the checksum passes. -/
def zeroBuffer : ℕ → ℕ := fun _ => 0

/-- A capture buffer whose DShot decode accumulates the word 1, whose
checksum fold is 1, so the decode returns the invalid sentinel. -/
def badDshotBuffer : ℕ → ℕ :=
  fun i => if i = 31 then 20 else if i % 2 = 1 then 1 else 0

/-- A driver state with one motor holding a freshly captured corrupt
DShot telemetry frame and previously stored telemetry value 100. -/
def badDriver : DshotDriver :=
  ⟨fun _ => ⟨100, true, false, badDshotBuffer⟩, 0⟩

/-- A biquad with all coefficients and state zero. -/
def biquadZero : Biquad := ⟨⟨0, 0, 0, 0, 0⟩, 0, 0, 0, 0⟩

/-- A bank slot as it sits in the zeroed C statics. -/
def bankZero : RpmNotchFilter := ⟨0, 0, 0, 0, fun _ _ _ => biquadZero⟩

/-- A one-harmonic bank with minimum 100 Hz. -/
def bankOne : RpmNotchFilter := ⟨1, 100, 5, 125, fun _ _ _ => biquadZero⟩

/-- A two-harmonic bank with minimum 100 Hz. -/
def bankTwo : RpmNotchFilter := ⟨2, 100, 5, 125, fun _ _ _ => biquadZero⟩

/-- A one-motor system (gyro bank only, one harmonic, pt1 gain 1/2,
smoothed estimate 0) used to evaluate the smoothing prologue. -/
def rpmSysC7 : RpmFilterSystem where
  rpmFilters := fun _ => 0
  pt1Gain := 1 / 2
  erpmToHz := 1
  filteredMotorErpm := fun _ => 0
  numberRpmNotchFilters := 1
  filterUpdatesPerIteration := 1
  banks := fun i => if i = 0 then bankOne else bankZero
  gyroFilterIdx := some 0
  dtermFilterIdx := none
  motorFrequency := fun _ => 0
  motor := 0
  harmonic := 0
  filter := 0
  motorCount := 1

/-- A two-motor system (gyro bank only, one harmonic) whose smoothed
estimates are 0 for motor 0 and 1 for motor 1, used to evaluate the
frequency-refresh point of a recompute step. -/
def rpmSysC8 : RpmFilterSystem where
  rpmFilters := fun _ => 0
  pt1Gain := 1 / 2
  erpmToHz := 1
  filteredMotorErpm := fun m => (m : ℚ)
  numberRpmNotchFilters := 1
  filterUpdatesPerIteration := 1
  banks := fun i => if i = 0 then bankOne else bankZero
  gyroFilterIdx := some 0
  dtermFilterIdx := none
  motorFrequency := fun _ => 0
  motor := 0
  harmonic := 0
  filter := 0
  motorCount := 2

/-- A one-motor system with a two-harmonic gyro bank, used to evaluate
the round-robin cursor. -/
def rpmSysC2 : RpmFilterSystem where
  rpmFilters := fun _ => 0
  pt1Gain := 1 / 2
  erpmToHz := 1
  filteredMotorErpm := fun _ => 0
  numberRpmNotchFilters := 1
  filterUpdatesPerIteration := 1
  banks := fun i => if i = 0 then bankTwo else bankZero
  gyroFilterIdx := some 0
  dtermFilterIdx := none
  motorFrequency := fun _ => 0
  motor := 0
  harmonic := 0
  filter := 0
  motorCount := 1

/-- The zeroed power-on state of the C statics of rpm_filter.c. -/
def rpmSysPowerOn : RpmFilterSystem where
  rpmFilters := fun _ => 0
  pt1Gain := 0
  erpmToHz := 0
  filteredMotorErpm := fun _ => 0
  numberRpmNotchFilters := 0
  filterUpdatesPerIteration := 0
  banks := fun _ => bankZero
  gyroFilterIdx := none
  dtermFilterIdx := none
  motorFrequency := fun _ => 0
  motor := 0
  harmonic := 0
  filter := 0
  motorCount := 0

/-- The default configuration (pgResetFn_rpmFilterConfig, lines 66–75). -/
def defaultRpmFilterConfig : RpmFilterConfig := ⟨3, 100, 500, 1, 100, 500⟩

/-- The default configuration with the gyro bank's harmonic count set to
zero, disabling that bank. -/
def gyroZeroConfig : RpmFilterConfig := ⟨0, 100, 500, 1, 100, 500⟩

theorem dshotAccum_lt (b : ℕ → ℕ) (k : ℕ) : dshotAccum b k < 2 ^ k := by
  induction k with
  | zero => simp [dshotAccum]
  | succ k ih =>
    have hv : (dshotAccum b k <<< 1) % U32 < 2 ^ (k + 1) := by
      calc (dshotAccum b k <<< 1) % U32 ≤ dshotAccum b k <<< 1 := Nat.mod_le _ _
        _ = dshotAccum b k * 2 := by rw [Nat.shiftLeft_eq]
        _ < 2 ^ k * 2 := by omega
        _ = 2 ^ (k + 1) := by ring
    have h1 : (1 : ℕ) < 2 ^ (k + 1) := Nat.one_lt_two_pow (by omega)
    have hor : (dshotAccum b k <<< 1) % U32 ||| 1 < 2 ^ (k + 1) :=
      Nat.or_lt_two_pow hv h1
    simp only [dshotAccum]
    split <;> split <;> first | exact hor | exact hv

theorem proshotNibble_lt (b : ℕ → ℕ) (i : ℕ) : proshotNibble b i < 16 := by
  unfold proshotNibble
  split
  · omega
  · have h : ((proshotDelta b i - PROSHOT_BASE_SYMBOL + PROSHOT_BIT_WIDTH / 2)
        / PROSHOT_BIT_WIDTH) &&& 0xf ≤ 0xf := Nat.and_le_right
    omega

theorem proshotAccum_lt (b : ℕ → ℕ) (k : ℕ) : proshotAccum b k < 2 ^ (4 * k) := by
  induction k with
  | zero => simp [proshotAccum]
  | succ k ih =>
    have hv : (proshotAccum b k <<< 4) % U32 < 2 ^ (4 * (k + 1)) := by
      calc (proshotAccum b k <<< 4) % U32 ≤ proshotAccum b k <<< 4 := Nat.mod_le _ _
        _ = proshotAccum b k * 16 := by rw [Nat.shiftLeft_eq]
        _ < 2 ^ (4 * k) * 16 := by omega
        _ = 2 ^ (4 * (k + 1)) := by ring
    have hn : proshotNibble b (2 * k + 1) < 2 ^ (4 * (k + 1)) := by
      have h16 : (16 : ℕ) ≤ 2 ^ (4 * (k + 1)) := by
        calc (16 : ℕ) = 2 ^ 4 := by norm_num
          _ ≤ 2 ^ (4 * (k + 1)) := Nat.pow_le_pow_right (by omega) (by omega)
      have := proshotNibble_lt b (2 * k + 1)
      omega
    simpa only [proshotAccum] using Nat.or_lt_two_pow hv hn

theorem testBit_fifteen (j : ℕ) : Nat.testBit 15 j = decide (j < 4) := by
  rcases lt_or_ge j 4 with hj | hj
  · interval_cases j <;> rfl
  · have h15 : (15 : ℕ) < 2 ^ j := by
      calc (15 : ℕ) < 2 ^ 4 := by norm_num
        _ ≤ 2 ^ j := Nat.pow_le_pow_right (by omega) hj
    simp [Nat.testBit_lt_two_pow h15, hj]

/-- The byte-then-nibble XOR fold's low nibble is the XOR of the four
nibbles of the word. -/
theorem csumFold_eq_xor (w : ℕ) :
    csumFold w = ((nibbleAt 0 w ^^^ nibbleAt 1 w) ^^^ nibbleAt 2 w) ^^^ nibbleAt 3 w := by
  unfold csumFold nibbleAt
  apply Nat.eq_of_testBit_eq
  intro i
  simp only [Nat.testBit_xor, Nat.testBit_and, Nat.testBit_shiftRight, testBit_fifteen]
  rcases lt_or_ge i 4 with hi | hi
  · interval_cases i <;>
    · norm_num
      generalize w.testBit 0 = a0
      generalize w.testBit 1 = a1
      generalize w.testBit 2 = a2
      generalize w.testBit 3 = a3
      generalize w.testBit 4 = a4
      generalize w.testBit 5 = a5
      generalize w.testBit 6 = a6
      generalize w.testBit 7 = a7
      generalize w.testBit 8 = a8
      generalize w.testBit 9 = a9
      generalize w.testBit 10 = a10
      generalize w.testBit 11 = a11
      generalize w.testBit 12 = a12
      generalize w.testBit 13 = a13
      generalize w.testBit 14 = a14
      generalize w.testBit 15 = a15
      revert a0 a1 a2 a3 a4 a5 a6 a7 a8 a9 a10 a11 a12 a13 a14 a15
      decide
  · have hd : decide (i < 4) = false := by simp; omega
    simp [hd]

theorem natXor_left_cancel {a x y : ℕ} (h : a ^^^ x = a ^^^ y) : x = y := by
  have h2 := congrArg (fun z => a ^^^ z) h
  simpa [← Nat.xor_assoc, Nat.xor_self, Nat.zero_xor] using h2

theorem natXor_right_cancel {x y a : ℕ} (h : x ^^^ a = y ^^^ a) : x = y :=
  natXor_left_cancel (a := a) (by rwa [Nat.xor_comm x a, Nat.xor_comm y a] at h)

/-- Claim C9: the byte-then-nibble XOR checksum deterministically rejects
any single-nibble corruption: if a 16-bit word passes the check (its fold
has zero low nibble) then every word differing from it in exactly one of
the four nibbles — hence in particular after any single bit flip — fails
the check, so the decoders return the invalid sentinel on it with
probability 1. -/
theorem checksum_rejects_single_nibble_corruption
    (w w' : ℕ) (hw : w < 2 ^ 16) (hw' : w' < 2 ^ 16)
    (hok : csumFold w = 0) (k : ℕ) (hk : k < 4)
    (hne : nibbleAt k w' ≠ nibbleAt k w)
    (hsame : ∀ j, j < 4 → j ≠ k → nibbleAt j w' = nibbleAt j w) :
    csumFold w' ≠ 0 := by
  intro hbad
  rw [csumFold_eq_xor] at hok hbad
  apply hne
  interval_cases k
  · rw [hsame 1 (by omega) (by omega), hsame 2 (by omega) (by omega),
      hsame 3 (by omega) (by omega)] at hbad
    exact natXor_right_cancel (natXor_right_cancel (natXor_right_cancel
      (hbad.trans hok.symm)))
  · rw [hsame 0 (by omega) (by omega), hsame 2 (by omega) (by omega),
      hsame 3 (by omega) (by omega)] at hbad
    have h2 := natXor_right_cancel (natXor_right_cancel (hbad.trans hok.symm))
    exact natXor_left_cancel h2
  · rw [hsame 0 (by omega) (by omega), hsame 1 (by omega) (by omega),
      hsame 3 (by omega) (by omega)] at hbad
    have h2 := natXor_right_cancel (hbad.trans hok.symm)
    exact natXor_left_cancel h2
  · rw [hsame 0 (by omega) (by omega), hsame 1 (by omega) (by omega),
      hsame 2 (by omega) (by omega)] at hbad
    exact natXor_left_cancel (hbad.trans hok.symm)

theorem checksum_rejects_single_nibble_corruption_witness :
    csumFold 0 = 0 ∧ csumFold 1 ≠ 0 :=
  ⟨by decide,
    checksum_rejects_single_nibble_corruption 0 1 (by decide) (by decide)
      (by decide) 0 (by decide) (by decide) (by decide)⟩

/-- The shared tail of both decoders: the sentinel is returned exactly on
a nonzero checksum fold, and a passing word below 2^16 yields its top 12
bits, which are below 2^12. -/
theorem decodeTail_spec (value : ℕ) (hv : value < 2 ^ 16) :
    ((if csumFold value ≠ 0 then 0xffff else value >>> 4) = 0xffff
        ↔ csumFold value ≠ 0)
    ∧ value >>> 4 < 2 ^ 12 := by
  have hsh : value >>> 4 < 2 ^ 12 := by
    rw [Nat.shiftRight_eq_div_pow]
    exact Nat.div_lt_of_lt_mul (by norm_num at hv ⊢; omega)
  constructor
  · by_cases h : csumFold value = 0
    · simp [h]
      omega
    · simp [h]
  · exact hsh

/-- Claim C3: both decoders are total functions of the captured buffer,
return the invalid sentinel 0xffff exactly when the byte-then-nibble XOR
fold of the accumulated word has a nonzero low nibble, and on a passing
checksum return the accumulated word shifted right by the 4-bit checksum
width. -/
theorem decode_packets_total_invalid_iff_checksum (b : ℕ → ℕ) :
    (decodeDshotPacket b = 0xffff
        ↔ csumFold (dshotAccum b (DSHOT_TELEMETRY_INPUT_LEN / 2)) ≠ 0)
    ∧ (csumFold (dshotAccum b (DSHOT_TELEMETRY_INPUT_LEN / 2)) = 0 →
        decodeDshotPacket b = dshotAccum b (DSHOT_TELEMETRY_INPUT_LEN / 2) >>> 4)
    ∧ (decodeProshotPacket b = 0xffff
        ↔ csumFold (proshotAccum b (PROSHOT_TELEMETRY_INPUT_LEN / 2)) ≠ 0)
    ∧ (csumFold (proshotAccum b (PROSHOT_TELEMETRY_INPUT_LEN / 2)) = 0 →
        decodeProshotPacket b = proshotAccum b (PROSHOT_TELEMETRY_INPUT_LEN / 2) >>> 4) := by
  have hd := dshotAccum_lt b 16
  have hp : proshotAccum b 4 < 2 ^ 16 := by
    have := proshotAccum_lt b 4
    norm_num at this ⊢
    omega
  refine ⟨(decodeTail_spec _ hd).1, fun h => ?_, (decodeTail_spec _ hp).1, fun h => ?_⟩
  · unfold decodeDshotPacket
    simp [h]
  · unfold decodeProshotPacket
    simp [h]

theorem decode_packets_total_invalid_iff_checksum_witness :
    decodeDshotPacket zeroBuffer = 0xfff ∧ decodeDshotPacket badDshotBuffer = 0xffff := by
  constructor
  · have h := (decode_packets_total_invalid_iff_checksum zeroBuffer).2.1 (by decide)
    rw [h]
    decide
  · exact ((decode_packets_total_invalid_iff_checksum badDshotBuffer).1).2 (by decide)

theorem decodeDshotPacket_lt (b : ℕ → ℕ) (h : decodeDshotPacket b ≠ 0xffff) :
    decodeDshotPacket b < 2 ^ 12 := by
  have hd := dshotAccum_lt b 16
  unfold decodeDshotPacket at h ⊢
  by_cases hc : csumFold (dshotAccum b (DSHOT_TELEMETRY_INPUT_LEN / 2)) = 0
  · simpa [hc] using (decodeTail_spec _ hd).2
  · simp [hc] at h

theorem decodeProshotPacket_lt (b : ℕ → ℕ) (h : decodeProshotPacket b ≠ 0xffff) :
    decodeProshotPacket b < 2 ^ 12 := by
  have hp : proshotAccum b 4 < 2 ^ 16 := by
    have := proshotAccum_lt b 4
    norm_num at this ⊢
    omega
  unfold decodeProshotPacket at h ⊢
  by_cases hc : csumFold (proshotAccum b (PROSHOT_TELEMETRY_INPUT_LEN / 2)) = 0
  · simpa [hc] using (decodeTail_spec _ hp).2
  · simp [hc] at h

theorem decodeMotor_lt (m : MotorDma) (h : decodeMotor m ≠ 0xffff) :
    decodeMotor m < 2 ^ 12 := by
  unfold decodeMotor at h ⊢
  by_cases hp : m.useProshot
  · simp only [hp, if_true] at h ⊢
    exact decodeProshotPacket_lt _ h
  · simp only [hp, if_false] at h ⊢
    exact decodeDshotPacket_lt _ h

theorem processDshotTelemetryMotor_fst (m : MotorDma) (c : ℕ) :
    (processDshotTelemetryMotor m c).1 =
      if m.hasTelemetry then
        (if decodeMotor m ≠ 0xffff then
          { m with dshotTelemetryValue := decodeMotor m, hasTelemetry := false }
        else { m with hasTelemetry := false })
      else m := by
  simp only [processDshotTelemetryMotor]
  split_ifs <;> rfl

theorem processDshotTelemetryMotor_snd (m : MotorDma) (c : ℕ) :
    (processDshotTelemetryMotor m c).2 =
      c + (if m.hasTelemetry ∧ decodeMotor m = 0xffff then 1 else 0) := by
  simp only [processDshotTelemetryMotor]
  split_ifs with h1 h2 h3 <;> simp_all

theorem pwmStartLoop_motors (s : DshotDriver) (n i : ℕ) :
    (pwmStartDshotMotorUpdateLoop s n).motors i =
      if i < n then (processDshotTelemetryMotor (s.motors i) 0).1
      else s.motors i := by
  induction n with
  | zero => simp [pwmStartDshotMotorUpdateLoop]
  | succ n ih =>
    simp only [pwmStartDshotMotorUpdateLoop]
    rcases eq_or_ne i n with rfl | hne
    · rw [Function.update_same]
      have hi : (pwmStartDshotMotorUpdateLoop s i).motors i = s.motors i := by
        rw [ih]
        simp
      rw [hi, processDshotTelemetryMotor_fst, processDshotTelemetryMotor_fst]
      simp
    · rw [Function.update_noteq hne, ih]
      rcases lt_or_ge i n with h | h
      · simp [h, Nat.lt_succ_of_lt h]
      · have h1 : ¬ i < n := by omega
        have h2 : ¬ i < n + 1 := by omega
        simp [h1, h2]

theorem pwmStartLoop_count (s : DshotDriver) (n : ℕ) :
    (pwmStartDshotMotorUpdateLoop s n).dshotInvalidPacketCount =
      s.dshotInvalidPacketCount +
        (List.range n).countP
          (fun j => (s.motors j).hasTelemetry && (decodeMotor (s.motors j) == 0xffff)) := by
  induction n with
  | zero => simp [pwmStartDshotMotorUpdateLoop]
  | succ n ih =>
    simp only [pwmStartDshotMotorUpdateLoop]
    have hm : (pwmStartDshotMotorUpdateLoop s n).motors n = s.motors n := by
      rw [pwmStartLoop_motors]
      simp
    rw [processDshotTelemetryMotor_snd, hm, ih, List.range_succ,
      List.countP_append]
    simp only [List.countP_cons, List.countP_nil]
    by_cases h1 : (s.motors n).hasTelemetry
    · by_cases h2 : decodeMotor (s.motors n) = 0xffff
      · simp [h1, h2]
        omega
      · simp [h1, h2]
    · simp [h1]

/-- Claim C10: the invalid sentinel is unambiguous: a non-sentinel value
returned by either decoder is strictly below 2^12 (the accumulated word
is below 2^16 and is shifted right by the 4-bit checksum width), so a
successful decode can never equal 0xffff, and the telemetry-consumption
loop can only ever store values below 2^12 on top of what was already
stored. -/
theorem decode_success_below_4096 (b : ℕ → ℕ) (s : DshotDriver) (n i : ℕ) :
    (decodeDshotPacket b ≠ 0xffff → decodeDshotPacket b < 2 ^ 12)
    ∧ (decodeProshotPacket b ≠ 0xffff → decodeProshotPacket b < 2 ^ 12)
    ∧ (i < n →
        ((pwmStartDshotMotorUpdateLoop s n).motors i).dshotTelemetryValue
            = (s.motors i).dshotTelemetryValue
        ∨ ((pwmStartDshotMotorUpdateLoop s n).motors i).dshotTelemetryValue < 2 ^ 12) := by
  refine ⟨decodeDshotPacket_lt b, decodeProshotPacket_lt b, fun hin => ?_⟩
  rw [pwmStartLoop_motors]
  simp only [hin, if_true]
  rw [processDshotTelemetryMotor_fst]
  by_cases h1 : (s.motors i).hasTelemetry
  · by_cases h2 : decodeMotor (s.motors i) = 0xffff
    · simp [h1, h2]
    · simp only [h1, if_true, h2, ne_eq, not_false_eq_true]
      right
      exact decodeMotor_lt _ h2
  · simp [h1]

theorem decode_success_below_4096_witness :
    decodeDshotPacket zeroBuffer < 2 ^ 12
    ∧ (((pwmStartDshotMotorUpdateLoop badDriver 1).motors 0).dshotTelemetryValue
          = (badDriver.motors 0).dshotTelemetryValue
        ∨ ((pwmStartDshotMotorUpdateLoop badDriver 1).motors 0).dshotTelemetryValue < 2 ^ 12) :=
  ⟨(decode_success_below_4096 zeroBuffer badDriver 1 0).1 (by decide),
    (decode_success_below_4096 zeroBuffer badDriver 1 0).2.2 (by decide)⟩

/-- Claim C1: in each single-cell recompute step, for every motor
frequency estimate f ≥ 0, harmonic index h and configured bank minimum m
(a uint8 value, so 0 ≤ m ≤ 255), the target t = (h+1)·f is transformed
exactly as: below m/2 it becomes the 1000 Hz deactivation frequency, in
[m/2, m) it is clamped up to m — in particular t = m/2 itself clamps to
m, not to the deactivation frequency — and at or above m it is capped at
1000 Hz. -/
theorem rpmFilterUpdate_clamp_policy (m f : ℚ) (h : ℕ)
    (hf : 0 ≤ f) (hm0 : 0 ≤ m) (hm : m ≤ 255) :
    (((h : ℚ) + 1) * f < 1 / 2 * m →
        rpmClamp m (((h : ℚ) + 1) * f) = deactivateFreq)
    ∧ (1 / 2 * m ≤ ((h : ℚ) + 1) * f → ((h : ℚ) + 1) * f < m →
        rpmClamp m (((h : ℚ) + 1) * f) = m)
    ∧ (m ≤ ((h : ℚ) + 1) * f →
        rpmClamp m (((h : ℚ) + 1) * f) = min (((h : ℚ) + 1) * f) deactivateFreq)
    ∧ (0 < m → rpmClamp m (1 / 2 * m) = m) := by
  have hdf : deactivateFreq = 1000 := rfl
  refine ⟨fun h1 => ?_, fun h1 h2 => ?_, fun h1 => ?_, fun h1 => ?_⟩
  · have ht : ((h : ℚ) + 1) * f < m := by linarith
    simp only [rpmClamp, hdf, if_pos ht, if_pos h1]
    norm_num
  · have h3 : ¬ ((h : ℚ) + 1) * f < 1 / 2 * m := by linarith
    simp only [rpmClamp, hdf, if_pos h2, if_neg h3]
    have : ¬ m > 1000 := by linarith
    simp [this]
  · have h2 : ¬ ((h : ℚ) + 1) * f < m := by linarith
    simp only [rpmClamp, hdf, if_neg h2]
    rcases lt_or_ge (1000 : ℚ) (((h : ℚ) + 1) * f) with h3 | h3
    · rw [if_pos h3, min_eq_right (le_of_lt h3)]
    · rw [if_neg (by linarith), min_eq_left h3]
  · have h2 : 1 / 2 * m < m := by linarith
    have h3 : ¬ 1 / 2 * m < 1 / 2 * m := lt_irrefl _
    simp only [rpmClamp, hdf, if_pos h2, if_neg h3]
    have : ¬ m > 1000 := by linarith
    simp [this]

theorem rpmFilterUpdate_clamp_policy_witness :
    rpmClamp 100 ((((0 : ℕ) : ℚ) + 1) * 30) = deactivateFreq
    ∧ rpmClamp 100 ((((0 : ℕ) : ℚ) + 1) * 60) = 100
    ∧ rpmClamp 100 ((((2 : ℕ) : ℚ) + 1) * 400)
        = min ((((2 : ℕ) : ℚ) + 1) * 400) deactivateFreq
    ∧ rpmClamp 100 (1 / 2 * 100) = 100 := by
  refine ⟨?_, ?_, ?_, ?_⟩
  · exact (rpmFilterUpdate_clamp_policy 100 30 0 (by norm_num) (by norm_num)
      (by norm_num)).1 (by push_cast; norm_num)
  · exact (rpmFilterUpdate_clamp_policy 100 60 0 (by norm_num) (by norm_num)
      (by norm_num)).2.1 (by push_cast; norm_num) (by push_cast; norm_num)
  · exact (rpmFilterUpdate_clamp_policy 100 400 2 (by norm_num) (by norm_num)
      (by norm_num)).2.2.1 (by push_cast; norm_num)
  · exact (rpmFilterUpdate_clamp_policy 100 1 0 (by norm_num) (by norm_num)
      (by norm_num)).2.2.2 (by norm_num)

/-- Claim C4 (the code contradicts the claimed invariant): at bank
initialization the cell for harmonic index 0 is fed center frequency
minHz·0 = 0 Hz (rpm_filter.c line 88) — shown here with the default
minimum 100 Hz, where the produced axis-0/motor-0/harmonic-0
coefficients record frequency 0 — while the claim and the spec's
invariant say every frequency ever fed to a notch lies in
[minimum, deactivation] and is never zero.  The update path itself uses
(harmonic+1)·f, so the 0-based multiplier at init is the slip. -/
theorem rpmNotchFilterInit_feeds_zero_frequency :
    notchInitFrequency 100 0 = 0
    ∧ ((rpmNotchFilterInit updSample 3 100 500 125 4 bankOne).notch 0 0 0).coeffs.b0 = 0 := by
  constructor
  · simp [notchInitFrequency]
  · simp [rpmNotchFilterInit, updSample, notchInitFrequency, XYZ_AXIS_COUNT]

/-- Claim C5: after a recompute step touching cell {motor, harmonic} of
the current bank, the five coefficients of that cell agree on every axis
with the axis-0 coefficients — they are computed once for axis 0 and
copied verbatim in the same step — and the same axis identity holds for
every in-range cell immediately after bank initialization. -/
theorem rpm_notch_axis_symmetry (upd biqInit : ℚ → ℚ → ℚ → BiquadCoeffs)
    (s : RpmFilterSystem) (axis : ℕ) (ha : axis < XYZ_AXIS_COUNT)
    (harmonics minHz q : ℕ) (looptime : ℚ) (motorCount : ℕ)
    (old : RpmNotchFilter) (motor i : ℕ)
    (hmot : motor < motorCount) (hi : i < harmonics) :
    ((((rpmFilterUpdateStep upd s).banks s.filter).notch axis s.motor s.harmonic).coeffs
        = (((rpmFilterUpdateStep upd s).banks s.filter).notch 0 s.motor s.harmonic).coeffs)
    ∧ (((rpmNotchFilterInit biqInit harmonics minHz q looptime motorCount old).notch
          axis motor i).coeffs
        = ((rpmNotchFilterInit biqInit harmonics minHz q looptime motorCount old).notch
          0 motor i).coeffs) := by
  constructor
  · have hbanks : (rpmFilterUpdateStep upd s).banks s.filter =
        { s.banks s.filter with notch := fun axis m h =>
            if m = s.motor ∧ h = s.harmonic ∧ axis < XYZ_AXIS_COUNT then
              { (s.banks s.filter).notch axis m h with
                coeffs := upd (rpmClamp ((s.banks s.filter).minHz : ℚ)
                    (((s.harmonic : ℚ) + 1) * s.motorFrequency s.motor))
                  (s.banks s.filter).loopTime (s.banks s.filter).q }
            else (s.banks s.filter).notch axis m h } := by
      simp only [rpmFilterUpdateStep]
      split_ifs <;> simp [Function.update_same]
    rw [hbanks]
    have h0 : (0 : ℕ) < XYZ_AXIS_COUNT := by norm_num [XYZ_AXIS_COUNT]
    simp [ha, h0]
  · simp only [rpmNotchFilterInit]
    have h0 : (0 : ℕ) < XYZ_AXIS_COUNT := by norm_num [XYZ_AXIS_COUNT]
    simp [ha, h0, hmot, hi]

theorem rpm_notch_axis_symmetry_witness :
    ((((rpmFilterUpdateStep updSample rpmSysC8).banks rpmSysC8.filter).notch 2
          rpmSysC8.motor rpmSysC8.harmonic).coeffs
        = (((rpmFilterUpdateStep updSample rpmSysC8).banks rpmSysC8.filter).notch 0
          rpmSysC8.motor rpmSysC8.harmonic).coeffs)
    ∧ (((rpmNotchFilterInit updSample 3 100 500 125 4 bankOne).notch 2 1 2).coeffs
        = ((rpmNotchFilterInit updSample 3 100 500 125 4 bankOne).notch 0 1 2).coeffs) :=
  rpm_notch_axis_symmetry updSample updSample rpmSysC8 2 (by norm_num [XYZ_AXIS_COUNT])
    3 100 500 125 4 bankOne 1 2 (by norm_num) (by norm_num)

theorem rpmFilterGyro_none (s : RpmFilterSystem) (h : s.gyroFilterIdx = none)
    (axis : ℕ) (v : ℚ) : rpmFilterGyro s axis v = (s, v) := by
  obtain ⟨rf, pg, eh, fme, nf, fupi, bks, gf, df, mf, mo, hr, fi, mc⟩ := s
  subst h
  rfl

theorem rpmFilterDterm_none (s : RpmFilterSystem) (h : s.dtermFilterIdx = none)
    (axis : ℕ) (v : ℚ) : rpmFilterDterm s axis v = (s, v) := by
  obtain ⟨rf, pg, eh, fme, nf, fupi, bks, gf, df, mf, mo, hr, fi, mc⟩ := s
  subst h
  rfl

theorem rpmFilterInit_off_gyro (biqInit : ℚ → ℚ → ℚ → BiquadCoeffs)
    (ptGain : ℚ → ℚ → ℚ) (cfg : RpmFilterConfig) (lt : ℚ) (denom mc pc : ℕ)
    (s : RpmFilterSystem) :
    (rpmFilterInit biqInit ptGain cfg false lt denom mc pc s).gyroFilterIdx = none := by
  simp [rpmFilterInit]

theorem rpmFilterInit_off_dterm (biqInit : ℚ → ℚ → ℚ → BiquadCoeffs)
    (ptGain : ℚ → ℚ → ℚ) (cfg : RpmFilterConfig) (lt : ℚ) (denom mc pc : ℕ)
    (s : RpmFilterSystem) :
    (rpmFilterInit biqInit ptGain cfg false lt denom mc pc s).dtermFilterIdx = none := by
  simp [rpmFilterInit]

theorem rpmFilterInit_gyro_zero (biqInit : ℚ → ℚ → ℚ → BiquadCoeffs)
    (ptGain : ℚ → ℚ → ℚ) (cfg : RpmFilterConfig) (lt : ℚ) (denom mc pc : ℕ)
    (s : RpmFilterSystem) (hg : cfg.gyro_rpm_notch_harmonics = 0) :
    (rpmFilterInit biqInit ptGain cfg true lt denom mc pc s).gyroFilterIdx
      = s.gyroFilterIdx := by
  simp only [rpmFilterInit, hg]
  split_ifs <;> simp_all

theorem rpmFilterInit_dterm_zero (biqInit : ℚ → ℚ → ℚ → BiquadCoeffs)
    (ptGain : ℚ → ℚ → ℚ) (cfg : RpmFilterConfig) (lt : ℚ) (denom mc pc : ℕ)
    (s : RpmFilterSystem) (hd : cfg.dterm_rpm_notch_harmonics = 0) :
    (rpmFilterInit biqInit ptGain cfg true lt denom mc pc s).dtermFilterIdx
      = s.dtermFilterIdx := by
  simp only [rpmFilterInit, hd]
  split_ifs <;> simp_all

/-- Claim C6: with DShot telemetry disabled, rpmFilterInit leaves both
bank pointers NULL and rpmFilterGyro/rpmFilterDterm return every sample
unchanged, with the whole filter state untouched; likewise a bank whose
harmonic count is configured as zero is never allocated (starting from
the power-on NULL pointers), and its apply function is the identity. -/
theorem rpm_filters_identity_when_inactive
    (biqInit : ℚ → ℚ → ℚ → BiquadCoeffs) (ptGain : ℚ → ℚ → ℚ)
    (cfg : RpmFilterConfig) (lt : ℚ) (denom mc pc : ℕ)
    (s : RpmFilterSystem) (axis : ℕ) (v : ℚ) :
    (rpmFilterGyro (rpmFilterInit biqInit ptGain cfg false lt denom mc pc s) axis v
        = (rpmFilterInit biqInit ptGain cfg false lt denom mc pc s, v)
      ∧ rpmFilterDterm (rpmFilterInit biqInit ptGain cfg false lt denom mc pc s) axis v
        = (rpmFilterInit biqInit ptGain cfg false lt denom mc pc s, v))
    ∧ (cfg.gyro_rpm_notch_harmonics = 0 → s.gyroFilterIdx = none →
        rpmFilterGyro (rpmFilterInit biqInit ptGain cfg true lt denom mc pc s) axis v
          = (rpmFilterInit biqInit ptGain cfg true lt denom mc pc s, v))
    ∧ (cfg.dterm_rpm_notch_harmonics = 0 → s.dtermFilterIdx = none →
        rpmFilterDterm (rpmFilterInit biqInit ptGain cfg true lt denom mc pc s) axis v
          = (rpmFilterInit biqInit ptGain cfg true lt denom mc pc s, v)) := by
  refine ⟨⟨?_, ?_⟩, fun hg hnone => ?_, fun hd hnone => ?_⟩
  · exact rpmFilterGyro_none _ (rpmFilterInit_off_gyro ..) axis v
  · exact rpmFilterDterm_none _ (rpmFilterInit_off_dterm ..) axis v
  · exact rpmFilterGyro_none _
      ((rpmFilterInit_gyro_zero biqInit ptGain cfg lt denom mc pc s hg).trans hnone) axis v
  · exact rpmFilterDterm_none _
      ((rpmFilterInit_dterm_zero biqInit ptGain cfg lt denom mc pc s hd).trans hnone) axis v

theorem rpm_filters_identity_when_inactive_witness :
    rpmFilterGyro
        (rpmFilterInit updSample (fun x y => x * y) defaultRpmFilterConfig false
          125 2 4 14 rpmSysC7) 0 7
      = (rpmFilterInit updSample (fun x y => x * y) defaultRpmFilterConfig false
          125 2 4 14 rpmSysC7, 7)
    ∧ rpmFilterGyro
        (rpmFilterInit updSample (fun x y => x * y) gyroZeroConfig true
          125 2 4 14 rpmSysPowerOn) 0 7
      = (rpmFilterInit updSample (fun x y => x * y) gyroZeroConfig true
          125 2 4 14 rpmSysPowerOn, 7) :=
  ⟨(rpm_filters_identity_when_inactive updSample (fun x y => x * y)
      defaultRpmFilterConfig 125 2 4 14 rpmSysC7 0 7).1.1,
    (rpm_filters_identity_when_inactive updSample (fun x y => x * y)
      gyroZeroConfig 125 2 4 14 rpmSysPowerOn 0 7).2.1 rfl rfl⟩

/-- Claim C7 (amended): when a captured frame decodes to the invalid
sentinel, pwmStartDshotMotorUpdate leaves that motor's stored telemetry
value unchanged and increments the invalid-packet counter; consequently
the eRPM smoother is fed the previously stored raw value — exactly the
input it would see with no new frame, never an extrapolated or zeroed
one — though the smoother still runs, so its output moves toward that
last stored value rather than freezing at the previous smoothed
output. -/
theorem invalid_packet_conservative_handling (mc : ℕ) (s : DshotDriver) (i : ℕ)
    (hi : i < mc) (ht : (s.motors i).hasTelemetry = true)
    (hbad : decodeMotor (s.motors i) = 0xffff) :
    ((pwmStartDshotMotorUpdate true mc s).motors i).dshotTelemetryValue
        = (s.motors i).dshotTelemetryValue
    ∧ (pwmStartDshotMotorUpdate true mc s).dshotInvalidPacketCount
        = s.dshotInvalidPacketCount
          + (List.range mc).countP
              (fun j => (s.motors j).hasTelemetry && (decodeMotor (s.motors j) == 0xffff))
    ∧ s.dshotInvalidPacketCount
        < (pwmStartDshotMotorUpdate true mc s).dshotInvalidPacketCount
    ∧ ∀ k prev : ℚ,
        pt1FilterApply k prev
            (getDshotTelemetry (pwmStartDshotMotorUpdate true mc s) i : ℚ)
          = pt1FilterApply k prev ((getDshotTelemetry s i : ℚ)) := by
  have hmot : (pwmStartDshotMotorUpdate true mc s).motors i
      = { s.motors i with hasTelemetry := false } := by
    simp only [pwmStartDshotMotorUpdate, if_true]
    rw [pwmStartLoop_motors]
    simp only [hi, if_true]
    rw [processDshotTelemetryMotor_fst]
    simp [ht, hbad]
  have hcnt : (pwmStartDshotMotorUpdate true mc s).dshotInvalidPacketCount
      = s.dshotInvalidPacketCount
        + (List.range mc).countP
            (fun j => (s.motors j).hasTelemetry && (decodeMotor (s.motors j) == 0xffff)) := by
    simp only [pwmStartDshotMotorUpdate, if_true]
    exact pwmStartLoop_count s mc
  refine ⟨by rw [hmot], hcnt, ?_, fun k prev => ?_⟩
  · have hpos : 0 < (List.range mc).countP
        (fun j => (s.motors j).hasTelemetry && (decodeMotor (s.motors j) == 0xffff)) :=
      List.countP_pos_iff.mpr ⟨i, List.mem_range.mpr hi, by simp [ht, hbad]⟩
    omega
  · unfold getDshotTelemetry
    rw [hmot]

theorem invalid_packet_conservative_handling_witness :
    ((pwmStartDshotMotorUpdate true 1 badDriver).motors 0).dshotTelemetryValue
        = (badDriver.motors 0).dshotTelemetryValue
    ∧ badDriver.dshotInvalidPacketCount
        < (pwmStartDshotMotorUpdate true 1 badDriver).dshotInvalidPacketCount :=
  ⟨(invalid_packet_conservative_handling 1 badDriver 0 (by decide) (by decide)
      (by decide)).1,
    (invalid_packet_conservative_handling 1 badDriver 0 (by decide) (by decide)
      (by decide)).2.2.1⟩

theorem step_filteredMotorErpm (upd : ℚ → ℚ → ℚ → BiquadCoeffs)
    (s : RpmFilterSystem) :
    (rpmFilterUpdateStep upd s).filteredMotorErpm = s.filteredMotorErpm := by
  simp only [rpmFilterUpdateStep]
  split_ifs <;> rfl

/-- Counterexample to claim C7 as stated: after an invalid frame the
stored telemetry value is retained (100 here), but the per-motor smoothed
eRPM estimate does not hold its previous smoothed value for that tick:
the low-pass filter is applied again to the stored raw value, moving the
smoothed estimate from 0 to 50 ≠ 0. -/
theorem invalid_packet_smoothed_value_changes :
    ((pwmStartDshotMotorUpdate true 1 badDriver).motors 0).dshotTelemetryValue = 100
    ∧ rpmSysC7.filteredMotorErpm 0 = 0
    ∧ (rpmFilterUpdate updSample
        (fun m => getDshotTelemetry (pwmStartDshotMotorUpdate true 1 badDriver) m)
        rpmSysC7).filteredMotorErpm 0 = 50
    ∧ (50 : ℚ) ≠ 0 := by
  have h100 : getDshotTelemetry (pwmStartDshotMotorUpdate true 1 badDriver) 0 = 100 := by
    unfold getDshotTelemetry
    simp only [pwmStartDshotMotorUpdate, if_true]
    rw [pwmStartLoop_motors]
    simp only [Nat.zero_lt_one, if_true]
    rw [processDshotTelemetryMotor_fst]
    simp [show decodeMotor (badDriver.motors 0) = 0xffff from by decide,
      show (badDriver.motors 0).hasTelemetry = true from rfl]
    rfl
  refine ⟨by simpa [getDshotTelemetry] using h100, rfl, ?_, by norm_num⟩
  simp only [rpmFilterUpdate]
  rw [if_neg (by simp [rpmSysC7])]
  rw [show rpmSysC7.filterUpdatesPerIteration = 1 from rfl,
    Function.iterate_one, step_filteredMotorErpm]
  simp only [show rpmSysC7.motorCount = 1 from rfl, Nat.zero_lt_one, if_true]
  rw [h100]
  show pt1FilterApply rpmSysC7.pt1Gain (rpmSysC7.rpmFilters 0) (100 : ℚ) = 50
  norm_num [pt1FilterApply, rpmSysC7]

/-- Claim C8 (amended): a single recompute step refreshes the frequency
estimate exactly when the bank index wraps — i.e. whenever the motor
index advances, including but not only its wrap back to motor 0 — and
then only for the newly selected motor, from the latest smoothed
telemetry (erpmToHz × filteredMotorErpm); at every other point of the
cursor's advance all estimates are untouched. -/
theorem motor_freq_refresh_exactly_on_bank_wrap (upd : ℚ → ℚ → ℚ → BiquadCoeffs)
    (s : RpmFilterSystem) :
    (rpmFilterUpdateStep upd s).motorFrequency =
      if s.harmonic + 1 = (s.banks s.filter).harmonics
          ∧ s.filter + 1 = s.numberRpmNotchFilters then
        Function.update s.motorFrequency
          (if s.motor + 1 = s.motorCount then 0 else s.motor + 1)
          (s.erpmToHz * s.filteredMotorErpm
            (if s.motor + 1 = s.motorCount then 0 else s.motor + 1))
      else s.motorFrequency := by
  simp only [rpmFilterUpdateStep]
  by_cases h1 : s.harmonic + 1 = (s.banks s.filter).harmonics
  · by_cases h2 : s.filter + 1 = s.numberRpmNotchFilters
    · simp [h1, h2]
    · simp [h1, h2]
  · simp [h1]

/-- Counterexample to claim C8 as stated: in this step the motor index
advances from 0 to 1 — it does not wrap back to zero — yet
motorFrequency[1] is refreshed from 0 to erpmToHz × filteredMotorErpm[1]
= 1, so the refresh does not happen exclusively on wrap-to-zero. -/
theorem motor_freq_refresh_without_wrap_to_zero :
    (rpmFilterUpdateStep updSample rpmSysC8).motor = 1
    ∧ rpmSysC8.motorFrequency 1 = 0
    ∧ (rpmFilterUpdateStep updSample rpmSysC8).motorFrequency 1 = 1 := by
  refine ⟨?_, rfl, ?_⟩
  · simp [rpmFilterUpdateStep, rpmSysC8, bankOne]
  · simp only [rpmFilterUpdateStep]
    rw [if_pos (show rpmSysC8.harmonic + 1 = (rpmSysC8.banks rpmSysC8.filter).harmonics
        from rfl)]
    rw [if_pos (show rpmSysC8.filter + 1 = rpmSysC8.numberRpmNotchFilters from rfl)]
    simp only
    rw [if_neg (show ¬ rpmSysC8.motor + 1 = rpmSysC8.motorCount from by decide)]
    show Function.update rpmSysC8.motorFrequency 1
        (rpmSysC8.erpmToHz * rpmSysC8.filteredMotorErpm 1) 1 = 1
    rw [Function.update_same]
    norm_num [rpmSysC8]

theorem bankOffset_mono (h : ℕ → ℕ) : Monotone (bankOffset h) :=
  monotone_nat_of_le_succ (fun n => by simp [bankOffset])

theorem bankOffset_succ_le (h : ℕ → ℕ) (f F : ℕ) (hf : f < F) :
    bankOffset h f + h f ≤ bankOffset h F := by
  have hx := bankOffset_mono h (Nat.succ_le_of_lt hf)
  simpa [bankOffset] using hx

theorem bankOffset_pos (h : ℕ → ℕ) (F : ℕ) (hF : 0 < F)
    (hpos : ∀ i, i < F → 0 < h i) : 0 < bankOffset h F := by
  have h1 : bankOffset h 0 + h 0 ≤ bankOffset h F := bankOffset_succ_le h 0 F hF
  have := hpos 0 hF
  simp [bankOffset] at h1
  omega

theorem rrRank_lt (M F : ℕ) (h : ℕ → ℕ) (c : RRCursor)
    (hv : RRValid M F h c) :
    rrRank (bankOffset h F) h c < M * bankOffset h F := by
  obtain ⟨hm, hf, hh⟩ := hv
  have h1 : bankOffset h c.filter + c.harmonic < bankOffset h F := by
    have := bankOffset_succ_le h c.filter F hf
    omega
  have h2 : c.motor + 1 ≤ M := hm
  have h3 : (c.motor + 1) * bankOffset h F ≤ M * bankOffset h F :=
    Nat.mul_le_mul_right _ h2
  have h4 : (c.motor + 1) * bankOffset h F
      = c.motor * bankOffset h F + bankOffset h F := by ring
  simp only [rrRank]
  omega

theorem rrAdvance_valid (M F : ℕ) (h : ℕ → ℕ) (hM : 0 < M) (hF : 0 < F)
    (hpos : ∀ i, i < F → 0 < h i) (c : RRCursor) (hv : RRValid M F h c) :
    RRValid M F h (rrAdvance M F h c) := by
  obtain ⟨hm, hf, hh⟩ := hv
  unfold RRValid rrAdvance
  split_ifs with h1 h2 h3 <;> dsimp only
  · exact ⟨hM, hF, hpos 0 hF⟩
  · exact ⟨by omega, hF, hpos 0 hF⟩
  · exact ⟨hm, by omega, hpos _ (by omega)⟩
  · exact ⟨hm, hf, by omega⟩

theorem rrRank_advance (M F : ℕ) (h : ℕ → ℕ) (hM : 0 < M) (hF : 0 < F)
    (hpos : ∀ i, i < F → 0 < h i) (c : RRCursor) (hv : RRValid M F h c) :
    rrRank (bankOffset h F) h (rrAdvance M F h c)
      = (rrRank (bankOffset h F) h c + 1) % (M * bankOffset h F) := by
  have hlt2 := rrRank_lt M F h _ (rrAdvance_valid M F h hM hF hpos c hv)
  obtain ⟨hm, hf, hh⟩ := hv
  by_cases h1 : c.harmonic + 1 = h c.filter
  · by_cases h2 : c.filter + 1 = F
    · have hH : bankOffset h F = bankOffset h c.filter + h c.filter := by
        rw [← h2]
        simp [bankOffset]
      by_cases h3 : c.motor + 1 = M
      · have hadv : rrAdvance M F h c = ⟨0, 0, 0⟩ := by
          unfold rrAdvance
          rw [if_pos h1, if_pos h2, if_pos h3]
        have hmul : (c.motor + 1) * bankOffset h F
            = c.motor * bankOffset h F + bankOffset h F := by ring
        have hMH : M * bankOffset h F = (c.motor + 1) * bankOffset h F := by
          rw [h3]
        have hsum : rrRank (bankOffset h F) h c + 1 = M * bankOffset h F := by
          simp only [rrRank]
          omega
        rw [hadv, hsum, Nat.mod_self]
        simp [rrRank, bankOffset]
      · have hadv : rrAdvance M F h c = ⟨c.motor + 1, 0, 0⟩ := by
          unfold rrAdvance
          rw [if_pos h1, if_pos h2, if_neg h3]
        have hmul : (c.motor + 1) * bankOffset h F
            = c.motor * bankOffset h F + bankOffset h F := by ring
        have heq : rrRank (bankOffset h F) h (rrAdvance M F h c)
            = rrRank (bankOffset h F) h c + 1 := by
          rw [hadv]
          simp only [rrRank, bankOffset]
          omega
        rw [heq, Nat.mod_eq_of_lt (heq ▸ hlt2)]
    · have hadv : rrAdvance M F h c = ⟨c.motor, c.filter + 1, 0⟩ := by
        unfold rrAdvance
        rw [if_pos h1, if_neg h2]
      have hoff : bankOffset h (c.filter + 1) = bankOffset h c.filter + h c.filter := by
        simp [bankOffset]
      have heq : rrRank (bankOffset h F) h (rrAdvance M F h c)
          = rrRank (bankOffset h F) h c + 1 := by
        rw [hadv]
        simp only [rrRank]
        omega
      rw [heq, Nat.mod_eq_of_lt (heq ▸ hlt2)]
  · have hadv : rrAdvance M F h c = ⟨c.motor, c.filter, c.harmonic + 1⟩ := by
      unfold rrAdvance
      rw [if_neg h1]
    have heq : rrRank (bankOffset h F) h (rrAdvance M F h c)
        = rrRank (bankOffset h F) h c + 1 := by
      rw [hadv]
      simp only [rrRank]
      omega
    rw [heq, Nat.mod_eq_of_lt (heq ▸ hlt2)]

theorem rrRank_injective (M F : ℕ) (h : ℕ → ℕ)
    (c1 c2 : RRCursor) (hv1 : RRValid M F h c1) (hv2 : RRValid M F h c2)
    (heq : rrRank (bankOffset h F) h c1 = rrRank (bankOffset h F) h c2) :
    c1 = c2 := by
  obtain ⟨hm1, hf1, hh1⟩ := hv1
  obtain ⟨hm2, hf2, hh2⟩ := hv2
  have hp1 : bankOffset h c1.filter + c1.harmonic < bankOffset h F := by
    have := bankOffset_succ_le h c1.filter F hf1
    omega
  have hp2 : bankOffset h c2.filter + c2.harmonic < bankOffset h F := by
    have := bankOffset_succ_le h c2.filter F hf2
    omega
  have hmot : c1.motor = c2.motor := by
    rcases lt_trichotomy c1.motor c2.motor with hlt | heqm | hgt
    · exfalso
      have hmul : (c1.motor + 1) * bankOffset h F ≤ c2.motor * bankOffset h F :=
        Nat.mul_le_mul_right _ hlt
      have hmul2 : (c1.motor + 1) * bankOffset h F
          = c1.motor * bankOffset h F + bankOffset h F := by ring
      simp only [rrRank] at heq
      omega
    · exact heqm
    · exfalso
      have hmul : (c2.motor + 1) * bankOffset h F ≤ c1.motor * bankOffset h F :=
        Nat.mul_le_mul_right _ hgt
      have hmul2 : (c2.motor + 1) * bankOffset h F
          = c2.motor * bankOffset h F + bankOffset h F := by ring
      simp only [rrRank] at heq
      omega
  have hpos2 : bankOffset h c1.filter + c1.harmonic
      = bankOffset h c2.filter + c2.harmonic := by
    simp only [rrRank, hmot] at heq
    omega
  have hfil : c1.filter = c2.filter := by
    rcases lt_trichotomy c1.filter c2.filter with hlt | heqf | hgt
    · exfalso
      have hofs : bankOffset h c1.filter + h c1.filter ≤ bankOffset h c2.filter := by
        have := bankOffset_mono h (Nat.succ_le_of_lt hlt)
        simpa [bankOffset] using this
      omega
    · exact heqf
    · exfalso
      have hofs : bankOffset h c2.filter + h c2.filter ≤ bankOffset h c1.filter := by
        have := bankOffset_mono h (Nat.succ_le_of_lt hgt)
        simpa [bankOffset] using this
      omega
  have hharm : c1.harmonic = c2.harmonic := by
    rw [hfil] at hpos2
    omega
  cases c1
  cases c2
  simp_all

theorem rrAdvance_iterate (M F : ℕ) (h : ℕ → ℕ) (hM : 0 < M) (hF : 0 < F)
    (hpos : ∀ i, i < F → 0 < h i) (c : RRCursor) (hv : RRValid M F h c) (k : ℕ) :
    RRValid M F h ((rrAdvance M F h)^[k] c)
    ∧ rrRank (bankOffset h F) h ((rrAdvance M F h)^[k] c)
      = (rrRank (bankOffset h F) h c + k) % (M * bankOffset h F) := by
  induction k with
  | zero =>
    refine ⟨hv, ?_⟩
    simp [Nat.mod_eq_of_lt (rrRank_lt M F h c hv)]
  | succ k ih =>
    obtain ⟨ihv, ihr⟩ := ih
    rw [Function.iterate_succ_apply']
    refine ⟨rrAdvance_valid M F h hM hF hpos _ ihv, ?_⟩
    rw [rrRank_advance M F h hM hF hpos _ ihv, ihr, Nat.mod_add_mod]
    rfl

theorem rrAdvance_covers (M F : ℕ) (h : ℕ → ℕ) (hM : 0 < M) (hF : 0 < F)
    (hpos : ∀ i, i < F → 0 < h i) (c0 c : RRCursor)
    (hv0 : RRValid M F h c0) (hv : RRValid M F h c) :
    ∃ k, k < M * bankOffset h F ∧ (rrAdvance M F h)^[k] c0 = c := by
  have hT : 0 < M * bankOffset h F :=
    Nat.mul_pos hM (bankOffset_pos h F hF hpos)
  have hr0 := rrRank_lt M F h c0 hv0
  have hr := rrRank_lt M F h c hv
  refine ⟨(rrRank (bankOffset h F) h c + M * bankOffset h F
      - rrRank (bankOffset h F) h c0) % (M * bankOffset h F),
    Nat.mod_lt _ hT, ?_⟩
  obtain ⟨hvk, hrk⟩ := rrAdvance_iterate M F h hM hF hpos c0 hv0
    ((rrRank (bankOffset h F) h c + M * bankOffset h F
      - rrRank (bankOffset h F) h c0) % (M * bankOffset h F))
  refine rrRank_injective M F h _ _ hvk hv ?_
  rw [hrk, Nat.add_mod_mod]
  have harith : rrRank (bankOffset h F) h c0
      + (rrRank (bankOffset h F) h c + M * bankOffset h F
        - rrRank (bankOffset h F) h c0)
      = rrRank (bankOffset h F) h c + M * bankOffset h F := by omega
  rw [harith, Nat.add_mod_right, Nat.mod_eq_of_lt hr]

theorem rrAdvance_no_early_repeat (M F : ℕ) (h : ℕ → ℕ) (hM : 0 < M) (hF : 0 < F)
    (hpos : ∀ i, i < F → 0 < h i) (c0 : RRCursor) (hv0 : RRValid M F h c0)
    (i j : ℕ) (hi : i < M * bankOffset h F) (hj : j < M * bankOffset h F)
    (heq : (rrAdvance M F h)^[i] c0 = (rrAdvance M F h)^[j] c0) : i = j := by
  obtain ⟨-, hri⟩ := rrAdvance_iterate M F h hM hF hpos c0 hv0 i
  obtain ⟨-, hrj⟩ := rrAdvance_iterate M F h hM hF hpos c0 hv0 j
  have hmods : (rrRank (bankOffset h F) h c0 + i) % (M * bankOffset h F)
      = (rrRank (bankOffset h F) h c0 + j) % (M * bankOffset h F) := by
    rw [← hri, ← hrj, heq]
  have hcongr : i % (M * bankOffset h F) = j % (M * bankOffset h F) :=
    Nat.ModEq.add_left_cancel' (rrRank (bankOffset h F) h c0) hmods
  rwa [Nat.mod_eq_of_lt hi, Nat.mod_eq_of_lt hj] at hcongr

theorem step_params (upd : ℚ → ℚ → ℚ → BiquadCoeffs) (s : RpmFilterSystem) :
    (rpmFilterUpdateStep upd s).motorCount = s.motorCount
    ∧ (rpmFilterUpdateStep upd s).numberRpmNotchFilters = s.numberRpmNotchFilters
    ∧ (rpmFilterUpdateStep upd s).filterUpdatesPerIteration
        = s.filterUpdatesPerIteration
    ∧ sysHarm (rpmFilterUpdateStep upd s) = sysHarm s
    ∧ (rpmFilterUpdateStep upd s).gyroFilterIdx = s.gyroFilterIdx
    ∧ (rpmFilterUpdateStep upd s).dtermFilterIdx = s.dtermFilterIdx := by
  have hbanks : ∀ i, ((rpmFilterUpdateStep upd s).banks i).harmonics
      = (s.banks i).harmonics := by
    intro i
    simp only [rpmFilterUpdateStep]
    split_ifs <;>
      · by_cases hi : i = s.filter
        · subst hi
          simp [Function.update_same]
        · simp [Function.update_noteq hi]
  refine ⟨?_, ?_, ?_, funext fun i => hbanks i, ?_, ?_⟩ <;>
    · simp only [rpmFilterUpdateStep]
      split_ifs <;> rfl

theorem step_cursor (upd : ℚ → ℚ → ℚ → BiquadCoeffs) (s : RpmFilterSystem) :
    sysCursor (rpmFilterUpdateStep upd s)
      = rrAdvance s.motorCount s.numberRpmNotchFilters (sysHarm s) (sysCursor s) := by
  simp only [rpmFilterUpdateStep, rrAdvance, sysCursor, sysHarm]
  split_ifs <;> rfl

theorem stepN_params (upd : ℚ → ℚ → ℚ → BiquadCoeffs) (s : RpmFilterSystem) (k : ℕ) :
    ((rpmFilterUpdateStep upd)^[k] s).motorCount = s.motorCount
    ∧ ((rpmFilterUpdateStep upd)^[k] s).numberRpmNotchFilters
        = s.numberRpmNotchFilters
    ∧ sysHarm ((rpmFilterUpdateStep upd)^[k] s) = sysHarm s
    ∧ ((rpmFilterUpdateStep upd)^[k] s).filterUpdatesPerIteration
        = s.filterUpdatesPerIteration
    ∧ ((rpmFilterUpdateStep upd)^[k] s).gyroFilterIdx = s.gyroFilterIdx
    ∧ ((rpmFilterUpdateStep upd)^[k] s).dtermFilterIdx = s.dtermFilterIdx := by
  induction k with
  | zero => exact ⟨rfl, rfl, rfl, rfl, rfl, rfl⟩
  | succ k ih =>
    obtain ⟨h1, h2, h3, h4, h5, h6⟩ := ih
    rw [Function.iterate_succ_apply']
    have hp := step_params upd ((rpmFilterUpdateStep upd)^[k] s)
    exact ⟨hp.1.trans h1, hp.2.1.trans h2, hp.2.2.2.1.trans h3,
      hp.2.2.1.trans h4, hp.2.2.2.2.1.trans h5, hp.2.2.2.2.2.trans h6⟩

theorem stepN_cursor (upd : ℚ → ℚ → ℚ → BiquadCoeffs) (s : RpmFilterSystem) (k : ℕ) :
    sysCursor ((rpmFilterUpdateStep upd)^[k] s)
      = (rrAdvance s.motorCount s.numberRpmNotchFilters (sysHarm s))^[k]
          (sysCursor s) := by
  induction k with
  | zero => rfl
  | succ k ih =>
    rw [Function.iterate_succ_apply', Function.iterate_succ_apply', ← ih]
    have hp := stepN_params upd s k
    rw [step_cursor, hp.1, hp.2.1, hp.2.2.1]

theorem rpmFilterUpdate_cursor (upd : ℚ → ℚ → ℚ → BiquadCoeffs)
    (telem : ℕ → ℕ) (s : RpmFilterSystem)
    (hne : ¬ (s.gyroFilterIdx = none ∧ s.dtermFilterIdx = none)) :
    sysCursor (rpmFilterUpdate upd telem s)
      = (rrAdvance s.motorCount s.numberRpmNotchFilters
          (sysHarm s))^[s.filterUpdatesPerIteration] (sysCursor s) := by
  simp only [rpmFilterUpdate]
  rw [if_neg hne]
  exact stepN_cursor upd _ _

theorem rpmFilterUpdate_params (upd : ℚ → ℚ → ℚ → BiquadCoeffs)
    (telem : ℕ → ℕ) (s : RpmFilterSystem) :
    (rpmFilterUpdate upd telem s).motorCount = s.motorCount
    ∧ (rpmFilterUpdate upd telem s).numberRpmNotchFilters
        = s.numberRpmNotchFilters
    ∧ sysHarm (rpmFilterUpdate upd telem s) = sysHarm s
    ∧ (rpmFilterUpdate upd telem s).filterUpdatesPerIteration
        = s.filterUpdatesPerIteration
    ∧ (rpmFilterUpdate upd telem s).gyroFilterIdx = s.gyroFilterIdx
    ∧ (rpmFilterUpdate upd telem s).dtermFilterIdx = s.dtermFilterIdx := by
  simp only [rpmFilterUpdate]
  split_ifs with h
  · exact ⟨rfl, rfl, rfl, rfl, rfl, rfl⟩
  · exact stepN_params upd _ _

theorem rpmFilterUpdateCalls_cursor (upd : ℚ → ℚ → ℚ → BiquadCoeffs)
    (telemSeq : ℕ → ℕ → ℕ) (s : RpmFilterSystem)
    (hne : ¬ (s.gyroFilterIdx = none ∧ s.dtermFilterIdx = none)) (n : ℕ) :
    sysCursor (rpmFilterUpdateCalls upd telemSeq s n)
      = (rrAdvance s.motorCount s.numberRpmNotchFilters
          (sysHarm s))^[n * s.filterUpdatesPerIteration] (sysCursor s)
    ∧ (rpmFilterUpdateCalls upd telemSeq s n).motorCount = s.motorCount
    ∧ (rpmFilterUpdateCalls upd telemSeq s n).numberRpmNotchFilters
        = s.numberRpmNotchFilters
    ∧ sysHarm (rpmFilterUpdateCalls upd telemSeq s n) = sysHarm s
    ∧ (rpmFilterUpdateCalls upd telemSeq s n).filterUpdatesPerIteration
        = s.filterUpdatesPerIteration
    ∧ (rpmFilterUpdateCalls upd telemSeq s n).gyroFilterIdx = s.gyroFilterIdx
    ∧ (rpmFilterUpdateCalls upd telemSeq s n).dtermFilterIdx
        = s.dtermFilterIdx := by
  induction n with
  | zero => exact ⟨by simp [rpmFilterUpdateCalls], rfl, rfl, rfl, rfl, rfl, rfl⟩
  | succ n ih =>
    obtain ⟨ic, i1, i2, i3, i4, i5, i6⟩ := ih
    have hne1 : ¬ ((rpmFilterUpdateCalls upd telemSeq s n).gyroFilterIdx = none
        ∧ (rpmFilterUpdateCalls upd telemSeq s n).dtermFilterIdx = none) := by
      rw [i5, i6]
      exact hne
    have hp := rpmFilterUpdate_params upd (telemSeq n)
      (rpmFilterUpdateCalls upd telemSeq s n)
    refine ⟨?_, hp.1.trans i1, hp.2.1.trans i2, hp.2.2.1.trans i3,
      hp.2.2.2.1.trans i4, hp.2.2.2.2.1.trans i5, hp.2.2.2.2.2.trans i6⟩
    show sysCursor (rpmFilterUpdate upd (telemSeq n)
        (rpmFilterUpdateCalls upd telemSeq s n)) = _
    rw [rpmFilterUpdate_cursor upd (telemSeq n) _ hne1, i1, i2, i3, i4, ic,
      ← Function.iterate_add_apply]
    congr 1
    ring

theorem sys_bankOffset_eq (s : RpmFilterSystem) (hwf : SysWF s) :
    bankOffset (sysHarm s) s.numberRpmNotchFilters = sysHarm s 0 + sysHarm s 1 := by
  obtain ⟨hM, hF, hF2, hpos, hzero, hcur⟩ := hwf
  have hF12 : s.numberRpmNotchFilters = 1 ∨ s.numberRpmNotchFilters = 2 := by omega
  rcases hF12 with h1 | h1 <;> rw [h1]
  · have hz := hzero 1 (by omega)
    simp [bankOffset, hz]
  · simp [bankOffset]

theorem ceil_mul_ge (T u : ℕ) (hu : 0 < u) (hT : 0 < T) :
    T ≤ (T + u - 1) / u * u := by
  have h1 : T + u - 1 = (T - 1) + u := by omega
  rw [h1, Nat.add_div_right _ hu]
  have h2 := Nat.div_add_mod (T - 1) u
  have h3 : (T - 1) % u < u := Nat.mod_lt _ hu
  have h4 : ((T - 1) / u + 1) * u = (T - 1) / u * u + u := by ring
  have h5 : u * ((T - 1) / u) = (T - 1) / u * u := by ring
  omega

/-- Claim C2: starting from any well-formed state (valid cursor, at least
one motor and one to two active banks), the budget loop of
rpmFilterUpdate performs exactly filterUpdatesPerIteration single-cell
recomputations per call — the call's cursor trajectory equals the
filterUpdatesPerIteration-fold round-robin advance, which steps harmonics
innermost, then banks, then motors; within totalCells =
motorCount·(harmonics of bank 0 + harmonics of bank 1) consecutive
single-cell steps no cell is recomputed twice, every valid
{motor, bank, harmonic} cell is reached, and hence the whole table is
covered within ⌈totalCells/filterUpdatesPerIteration⌉ calls. -/
theorem rpmFilterUpdate_round_robin_fair (upd : ℚ → ℚ → ℚ → BiquadCoeffs)
    (s : RpmFilterSystem) (hwf : SysWF s)
    (hu : 0 < s.filterUpdatesPerIteration) :
    (∀ telem, ¬ (s.gyroFilterIdx = none ∧ s.dtermFilterIdx = none) →
        sysCursor (rpmFilterUpdate upd telem s)
          = (rrAdvance s.motorCount s.numberRpmNotchFilters
              (sysHarm s))^[s.filterUpdatesPerIteration] (sysCursor s))
    ∧ (∀ i j, i < s.motorCount * (sysHarm s 0 + sysHarm s 1) →
        j < s.motorCount * (sysHarm s 0 + sysHarm s 1) →
        sysCursor ((rpmFilterUpdateStep upd)^[i] s)
          = sysCursor ((rpmFilterUpdateStep upd)^[j] s) →
        i = j)
    ∧ (∀ c : RRCursor,
        RRValid s.motorCount s.numberRpmNotchFilters (sysHarm s) c →
        ∃ k, k < s.motorCount * (sysHarm s 0 + sysHarm s 1)
          ∧ sysCursor ((rpmFilterUpdateStep upd)^[k] s) = c)
    ∧ (∀ c : RRCursor,
        RRValid s.motorCount s.numberRpmNotchFilters (sysHarm s) c →
        ∃ call rem,
          call < (s.motorCount * (sysHarm s 0 + sysHarm s 1)
              + s.filterUpdatesPerIteration - 1) / s.filterUpdatesPerIteration
          ∧ rem < s.filterUpdatesPerIteration
          ∧ sysCursor ((rpmFilterUpdateStep upd)^[call * s.filterUpdatesPerIteration + rem] s)
              = c)
    ∧ (∀ telemSeq : ℕ → ℕ → ℕ,
        ¬ (s.gyroFilterIdx = none ∧ s.dtermFilterIdx = none) → ∀ n,
        sysCursor (rpmFilterUpdateCalls upd telemSeq s n)
          = (rrAdvance s.motorCount s.numberRpmNotchFilters
              (sysHarm s))^[n * s.filterUpdatesPerIteration] (sysCursor s)) := by
  obtain ⟨hM, hF, hF2, hpos, hzero, hcur⟩ := hwf
  have hT : s.motorCount * (sysHarm s 0 + sysHarm s 1)
      = s.motorCount * bankOffset (sysHarm s) s.numberRpmNotchFilters := by
    rw [sys_bankOffset_eq s ⟨hM, hF, hF2, hpos, hzero, hcur⟩]
  have hTpos : 0 < s.motorCount * bankOffset (sysHarm s) s.numberRpmNotchFilters :=
    Nat.mul_pos hM (bankOffset_pos _ _ hF hpos)
  refine ⟨fun telem hne => ?_, fun i j hi hj heq => ?_, fun c hc => ?_,
    fun c hc => ?_, fun telemSeq hne n =>
      (rpmFilterUpdateCalls_cursor upd telemSeq s hne n).1⟩
  · exact rpmFilterUpdate_cursor upd telem s hne
  · rw [hT] at hi hj
    rw [stepN_cursor, stepN_cursor] at heq
    exact rrAdvance_no_early_repeat s.motorCount s.numberRpmNotchFilters
      (sysHarm s) hM hF hpos (sysCursor s) hcur i j hi hj heq
  · obtain ⟨k, hk, hck⟩ := rrAdvance_covers s.motorCount s.numberRpmNotchFilters
      (sysHarm s) hM hF hpos (sysCursor s) c hcur hc
    refine ⟨k, ?_, ?_⟩
    · rw [hT]
      exact hk
    · rw [stepN_cursor]
      exact hck
  · obtain ⟨k, hk, hck⟩ := rrAdvance_covers s.motorCount s.numberRpmNotchFilters
      (sysHarm s) hM hF hpos (sysCursor s) c hcur hc
    refine ⟨k / s.filterUpdatesPerIteration, k % s.filterUpdatesPerIteration,
      ?_, Nat.mod_lt _ hu, ?_⟩
    · rw [Nat.div_lt_iff_lt_mul hu]
      have hceil := ceil_mul_ge
        (s.motorCount * (sysHarm s 0 + sysHarm s 1))
        s.filterUpdatesPerIteration hu (by omega)
      omega
    · rw [Nat.div_add_mod']
      rw [stepN_cursor]
      exact hck

theorem rpmFilterUpdate_round_robin_fair_witness :
    ∃ k, k < rpmSysC2.motorCount * (sysHarm rpmSysC2 0 + sysHarm rpmSysC2 1)
      ∧ sysCursor ((rpmFilterUpdateStep updSample)^[k] rpmSysC2)
          = (⟨0, 0, 1⟩ : RRCursor) := by
  have hh0 : sysHarm rpmSysC2 0 = 2 := by
    simp [sysHarm, rpmSysC2, bankTwo]
  have hzero : ∀ i, rpmSysC2.numberRpmNotchFilters ≤ i → sysHarm rpmSysC2 i = 0 := by
    intro i hi
    have hne : i ≠ 0 := by
      intro h0
      rw [h0] at hi
      simp [rpmSysC2] at hi
    simp [sysHarm, rpmSysC2, hne, bankZero]
  have hwf : SysWF rpmSysC2 := by
    refine ⟨by norm_num [rpmSysC2], by norm_num [rpmSysC2],
      by norm_num [rpmSysC2], ?_, hzero, ?_, ?_, ?_⟩
    · intro i hi
      have h0 : i = 0 := by
        simp [rpmSysC2] at hi
        omega
      rw [h0, hh0]
      norm_num
    · show rpmSysC2.motor < rpmSysC2.motorCount
      norm_num [rpmSysC2]
    · show rpmSysC2.filter < rpmSysC2.numberRpmNotchFilters
      norm_num [rpmSysC2]
    · show rpmSysC2.harmonic < sysHarm rpmSysC2 rpmSysC2.filter
      show rpmSysC2.harmonic < sysHarm rpmSysC2 0
      rw [hh0]
      norm_num [rpmSysC2]
  have hc : RRValid rpmSysC2.motorCount rpmSysC2.numberRpmNotchFilters
      (sysHarm rpmSysC2) ⟨0, 0, 1⟩ := by
    refine ⟨by norm_num [rpmSysC2], by norm_num [rpmSysC2], ?_⟩
    show (1 : ℕ) < sysHarm rpmSysC2 0
    rw [hh0]
    norm_num
  exact (rpmFilterUpdate_round_robin_fair updSample rpmSysC2 hwf
    (by norm_num [rpmSysC2])).2.2.1 ⟨0, 0, 1⟩ hc

end Betaflight
